import Mathlib

/-!
# nodelet::Loader (nodelet/src/loader.cpp)

A shallow embedding of the nodelet loader: the registry `nodelets_`
(a `std::map<std::string, NodeletPtr>`), the operations `Loader::load`,
`Loader::unload`, `Loader::clear`, `Loader::listLoadedNodelets`, the
constructor `Loader::Loader`, and the service callbacks of `detail::LoaderROS`.

Modelling conventions.

* `std::string` is `String`. The order `<` on `String` is lexicographic on
  code points, which on UTF-8 encoded text is the byte-wise order of
  `std::string::operator<`.
* `std::map<std::string, V>` is `StdMap V`: the list of its entries in
  iteration order, with keys strictly ascending.
* A call that can leave by an exception has a result of type `Completion`:
  `returned v` for a normal return, `threw` when an exception leaves the call.
* The plugin factory (`pluginlib::ClassLoader::createClassInstance`) and
  `Nodelet::init` are outside `loader.cpp`; their behaviour at a call is a
  parameter (`Plugins`), and every call the loader makes to them is recorded
  in a trace of `Call`s. They are taken not to call back into the loader, and
  releasing a `NodeletPtr` is taken to have no effect on the loader.
* Calls are sequential: one member call runs to its end before the next.
-/

namespace nodelet

/-! ## `std::map<std::string, V>` -/

/-- Decision procedure for `<` on `String` that evaluates by comparing the
character lists. -/
instance (priority := 2000) decLtString (a b : String) : Decidable (a < b) :=
  decidable_of_iff (a.toList < b.toList) String.lt_iff_toList_lt.symm

/-- Entries of a map in iteration order: keys strictly ascending. -/
def StdMap.Ordered {V : Type} (l : List (String × V)) : Prop :=
  l.Pairwise (fun a b => a.1 < b.1)

/-- Model of `std::map<std::string, V>`. -/
structure StdMap (V : Type) where
  entries : List (String × V)
  ordered : StdMap.Ordered entries

namespace StdMap

variable {V : Type}

/-- Value stored under `k` in a list of entries, if any. -/
def lookupEntries (k : String) : List (String × V) → Option V
  | [] => none
  | e :: rest => if e.1 = k then some e.2 else lookupEntries k rest

/-- Position of the entry with key `k` in a list of entries, if any. -/
def findEntries (k : String) : List (String × V) → Option Nat
  | [] => none
  | e :: rest => if e.1 = k then some 0 else (findEntries k rest).map (· + 1)

/-- Entries after `m[k] = v`: the value under `k` is replaced when the key
exists, otherwise a new entry is placed at its position in key order. -/
def assignEntries (k : String) (v : V) : List (String × V) → List (String × V)
  | [] => [(k, v)]
  | e :: rest =>
    if k < e.1 then (k, v) :: e :: rest
    else if e.1 < k then e :: assignEntries k v rest
    else (k, v) :: rest

theorem assignEntries_bound (k : String) (v : V) (a : String × V) :
    ∀ (l : List (String × V)), a.1 < k → (∀ b ∈ l, a.1 < b.1) →
      ∀ b ∈ assignEntries k v l, a.1 < b.1 := by
  intro l
  induction l with
  | nil =>
    intro hak _ b hb
    simp only [assignEntries, List.mem_singleton] at hb
    subst hb
    exact hak
  | cons e rest ih =>
    intro hak hall b hb
    unfold assignEntries at hb
    split_ifs at hb with h1 h2
    · rcases List.mem_cons.1 hb with rfl | hb2
      · exact hak
      · exact hall b hb2
    · rcases List.mem_cons.1 hb with rfl | hb2
      · exact hall _ (List.mem_cons_self _ _)
      · exact ih hak (fun c hc => hall c (List.mem_cons_of_mem _ hc)) b hb2
    · rcases List.mem_cons.1 hb with rfl | hb2
      · exact hak
      · exact hall b (List.mem_cons_of_mem _ hb2)

theorem assignEntries_ordered (k : String) (v : V) :
    ∀ (l : List (String × V)), Ordered l → Ordered (assignEntries k v l) := by
  intro l
  induction l with
  | nil =>
    intro _
    simp [assignEntries, Ordered]
  | cons e rest ih =>
    intro h
    have hpair := List.pairwise_cons.1 h
    unfold assignEntries
    split_ifs with h1 h2
    · refine List.pairwise_cons.2 ⟨?_, h⟩
      intro b hb
      rcases List.mem_cons.1 hb with rfl | hb2
      · exact h1
      · exact lt_trans h1 (hpair.1 b hb2)
    · refine List.pairwise_cons.2 ⟨?_, ih hpair.2⟩
      exact assignEntries_bound k v e rest h2 hpair.1
    · have hek : e.1 = k := le_antisymm (not_lt.1 h1) (not_lt.1 h2)
      refine List.pairwise_cons.2 ⟨?_, hpair.2⟩
      intro b hb
      have := hpair.1 b hb
      rw [hek] at this
      exact this

theorem eraseIdx_ordered (i : Nat) (l : List (String × V)) (h : Ordered l) :
    Ordered (l.eraseIdx i) :=
  List.Pairwise.sublist (List.eraseIdx_sublist l i) h

/-- The empty map. -/
def empty : StdMap V := ⟨[], List.Pairwise.nil⟩

/-- Iterators: `none` is `end()`, `some i` points at the `i`-th entry. -/
abbrev Iterator := Option Nat

/-- Method `std::map::find`. -/
def find (m : StdMap V) (k : String) : Iterator := findEntries k m.entries

/-- Method `std::map::count`: 1 when the key exists, 0 otherwise. -/
def count (m : StdMap V) (k : String) : Nat :=
  match m.find k with
  | some _ => 1
  | none => 0

/-- The statement `m[k] = v`. -/
def assign (m : StdMap V) (k : String) (v : V) : StdMap V :=
  ⟨assignEntries k v m.entries, assignEntries_ordered k v m.entries m.ordered⟩

/-- Method `std::map::erase(iterator)` at a dereferenceable iterator. -/
def erase (m : StdMap V) (i : Nat) : StdMap V :=
  ⟨m.entries.eraseIdx i, eraseIdx_ordered i m.entries m.ordered⟩

/-- Method `std::map::clear`. -/
def clear (_m : StdMap V) : StdMap V := empty

/-- Keys in iteration order (`begin()` to `end()`, `it->first`). -/
def keys (m : StdMap V) : List String := m.entries.map Prod.fst

/-- The value the map holds under `k`, if any. -/
def lookup (m : StdMap V) (k : String) : Option V := lookupEntries k m.entries

theorem ext_entries {m₁ m₂ : StdMap V} (h : m₁.entries = m₂.entries) : m₁ = m₂ := by
  cases m₁
  cases m₂
  cases h
  rfl

instance [DecidableEq V] : DecidableEq (StdMap V) := fun a b =>
  decidable_of_iff (a.entries = b.entries) ⟨ext_entries, fun h => congrArg entries h⟩

end StdMap

/-! ## Collaborators outside `loader.cpp` -/

/-- Exceptions, as far as `Loader::load` tells them apart: its handler catches
`pluginlib::PluginlibException` and lets every other exception pass. -/
inductive Raised where
  | pluginlibException
  | other
  deriving DecidableEq

/-- Result of a call that an exception may leave. -/
inductive Completion (α : Type) where
  | returned (value : α)
  | threw
  deriving DecidableEq

/-- A non-null `NodeletPtr`, identified by the address of the instance. -/
structure NodeletPtr where
  addr : Nat
  deriving DecidableEq

/-- A `detail::CallbackQueueManager`, identified by the constructor call that
made it: `new CallbackQueueManager(n)` or `new CallbackQueueManager`. -/
inductive CallbackQueueManager where
  | withThreads (num_worker_threads : Int)
  | defaultConstructed
  deriving DecidableEq

/-- A `detail::CallbackQueueManagerPtr`; `none` is the null pointer. -/
abbrev CallbackQueueManagerPtr := Option CallbackQueueManager

/-- Type `ros::M_string`. -/
abbrev M_string := StdMap String

/-- Type `M_stringToNodelet`. -/
abbrev M_stringToNodelet := StdMap NodeletPtr

/-- Behaviour of the plugin side at one call of the loader.
`createClassInstance type` returns a pointer (`none` is null) or raises;
`init p name remappings my_argv callback_manager` returns or raises. -/
structure Plugins where
  createClassInstance : String → Except Raised (Option NodeletPtr)
  init : NodeletPtr → String → M_string → List String → CallbackQueueManagerPtr →
    Except Raised Unit

/-- Calls the loader makes to its collaborators. -/
inductive Call where
  | createClassInstance (type : String)
  | init (p : NodeletPtr) (name : String) (remappings : M_string)
      (my_argv : List String) (callback_manager : CallbackQueueManagerPtr)
  deriving DecidableEq

/-! ## `class Loader` -/

/-- Data members of `Loader`: `services_` (whether a `LoaderROS` is held),
`nodelets_` and `callback_manager_`. -/
structure Loader where
  services_ : Bool
  nodelets_ : M_stringToNodelet
  callback_manager_ : CallbackQueueManagerPtr
  deriving DecidableEq

/-- What one member call leaves behind: the loader afterwards, how the call
ended, and the collaborator calls it made, in order. -/
structure Step (α : Type) where
  state : Loader
  result : Completion α
  calls : List Call

/-- The `try` block of `Loader::load` (lines 157-170), entered once the name
is known to be free. -/
def Loader.loadTry (env : Plugins) (self : Loader) (name type : String)
    (remappings : M_string) (my_argv : List String) :
    Loader × List Call × Except Raised Bool :=
  match env.createClassInstance type with
  | .error e => (self, [Call.createClassInstance type], .error e)
  | .ok none => (self, [Call.createClassInstance type], .ok false)
  | .ok (some p) =>
    let self1 : Loader := { self with nodelets_ := self.nodelets_.assign name p }
    let calls := [Call.createClassInstance type,
      Call.init p name remappings my_argv self1.callback_manager_]
    match env.init p name remappings my_argv self1.callback_manager_ with
    | .error e => (self1, calls, .error e)
    | .ok () => (self1, calls, .ok true)

/-- Method `Loader::load`. -/
def Loader.load (env : Plugins) (self : Loader) (name type : String)
    (remappings : M_string) (my_argv : List String) : Step Bool :=
  if self.nodelets_.count name > 0 then
    ⟨self, .returned false, []⟩
  else
    match Loader.loadTry env self name type remappings my_argv with
    | (self1, calls, .ok b) => ⟨self1, .returned b, calls⟩
    | (self1, calls, .error .pluginlibException) => ⟨self1, .returned false, calls⟩
    | (self1, calls, .error .other) => ⟨self1, .threw, calls⟩

/-- Method `Loader::unload`. -/
def Loader.unload (self : Loader) (name : String) : Loader × Bool :=
  match self.nodelets_.find name with
  | some it => ({ self with nodelets_ := self.nodelets_.erase it }, true)
  | none => (self, false)

/-- Method `Loader::clear`. -/
def Loader.clear (self : Loader) : Loader × Bool :=
  ({ self with nodelets_ := self.nodelets_.clear }, true)

/-- Method `Loader::listLoadedNodelets`: the keys of `nodelets_` from
`begin()` to `end()`. -/
def Loader.listLoadedNodelets (self : Loader) : List String :=
  self.nodelets_.keys

/-- Constructor `Loader::Loader(bool provide_ros_api)`; `getParam` is the
result of `server_nh.getParam("num_worker_threads", ...)`, `none` when the
parameter is not set. -/
def Loader.ctor (provide_ros_api : Bool) (getParam : Option Int) : Loader :=
  let cm0 : CallbackQueueManagerPtr := none
  let cm1 : CallbackQueueManagerPtr :=
    if provide_ros_api then
      match getParam with
      | some num_threads_param => some (.withThreads num_threads_param)
      | none => cm0
    else cm0
  let cm2 : CallbackQueueManagerPtr :=
    if cm1.isNone then some .defaultConstructed else cm1
  ⟨provide_ros_api, StdMap.empty, cm2⟩

/-! ## `class detail::LoaderROS` -/

/-- Message `nodelet::NodeletLoad::Request`. -/
structure NodeletLoadRequest where
  name : String
  type : String
  remap_source_args : List String
  remap_target_args : List String
  my_argv : List String

/-- Message `nodelet::NodeletLoad::Response`. -/
structure NodeletLoadResponse where
  success : Bool
  deriving DecidableEq

/-- What a service callback leaves behind: the parent loader, the response,
how the callback ended, and the collaborator calls made. -/
structure ServiceStep where
  state : Loader
  res : NodeletLoadResponse
  result : Completion Bool
  calls : List Call

/-- The `for` loop of `serviceLoad` (lines 74-79) over the paired source and
target names; `resolve` is `ros::names::resolve`, which raises on an invalid
name. -/
def LoaderROS.remapLoop (resolve : String → Except Raised String) :
    List (String × String) → M_string → Except Raised M_string
  | [], remappings => .ok remappings
  | (source, target) :: rest, remappings =>
    match resolve target with
    | .error e => .error e
    | .ok t =>
      match resolve source with
      | .error e => .error e
      | .ok s => LoaderROS.remapLoop resolve rest (remappings.assign s t)

/-- The map built by `serviceLoad` before it calls `load` (lines 66-80). -/
def LoaderROS.buildRemappings (resolve : String → Except Raised String)
    (req : NodeletLoadRequest) : Except Raised M_string :=
  if req.remap_source_args.length ≠ req.remap_target_args.length then
    .ok StdMap.empty
  else
    LoaderROS.remapLoop resolve (req.remap_source_args.zip req.remap_target_args)
      StdMap.empty

/-- Method `LoaderROS::serviceLoad`, with `parent_` the loader it serves. -/
def LoaderROS.serviceLoad (env : Plugins) (resolve : String → Except Raised String)
    (parent_ : Loader) (req : NodeletLoadRequest) (res : NodeletLoadResponse) :
    ServiceStep :=
  match LoaderROS.buildRemappings resolve req with
  | .error _ => ⟨parent_, res, .threw, []⟩
  | .ok remappings =>
    let r := parent_.load env req.name req.type remappings req.my_argv
    match r.result with
    | .returned b => ⟨r.state, ⟨b⟩, .returned b, r.calls⟩
    | .threw => ⟨r.state, res, .threw, r.calls⟩

/-- Method `LoaderROS::serviceUnload`. -/
def LoaderROS.serviceUnload (parent_ : Loader) (name : String) : Loader × Bool :=
  parent_.unload name

/-- Method `LoaderROS::serviceList`: the response's `nodelets` and the return
value `true`. -/
def LoaderROS.serviceList (parent_ : Loader) : List String × Bool :=
  (parent_.listLoadedNodelets, true)

/-! ## Predicates used to state the contract -/

/-- A call of `load` that ended as `r` instantiated an instance and inserted its
record under `name`: the factory was called and returned an instance `p`, the
registry had no record under `name` before the call and holds `p` under `name`
after it. -/
def Loader.instantiatedAndInserted (env : Plugins) (self : Loader) (name type : String)
    (r : Step Bool) : Prop :=
  Call.createClassInstance type ∈ r.calls ∧
  ∃ p, env.createClassInstance type = .ok (some p) ∧
    self.nodelets_.lookup name = none ∧ r.state.nodelets_.lookup name = some p

/-- A collaborator call is a call of `Nodelet::init`. -/
def Call.isInit : Call → Bool
  | .init _ _ _ _ _ => true
  | .createClassInstance _ => false

/-- The sequence `load(a, T, ...)`, `unload(a)`, `load(a, T, ...)` started from
`self` returns true, true, true and leaves `a` present; `env1` and `env2` are
the plugin side at the first and at the second load. -/
abbrev Loader.roundTripSucceeds (env1 env2 : Plugins) (self : Loader) (a T : String)
    (remappings : M_string) (my_argv : List String) : Prop :=
  (self.load env1 a T remappings my_argv).result = .returned true ∧
  ((self.load env1 a T remappings my_argv).state.unload a).2 = true ∧
  (((self.load env1 a T remappings my_argv).state.unload a).1.load env2 a T remappings
    my_argv).result = .returned true ∧
  a ∈ (((self.load env1 a T remappings my_argv).state.unload a).1.load env2 a T
    remappings my_argv).state.listLoadedNodelets

/-- One operation on the registry, with the plugin side a `load` meets. -/
inductive Op where
  | load (env : Plugins) (name type : String) (remappings : M_string)
      (my_argv : List String)
  | unload (name : String)
  | clear
  | list

/-- The loader after one operation. -/
def Loader.step (self : Loader) : Op → Loader
  | .load env name type remappings my_argv =>
    (self.load env name type remappings my_argv).state
  | .unload name => (self.unload name).1
  | .clear => (self.clear).1
  | .list => self

/-- The collaborator calls one operation makes. -/
def Loader.stepCalls (self : Loader) : Op → List Call
  | .load env name type remappings my_argv =>
    (self.load env name type remappings my_argv).calls
  | .unload _ => []
  | .clear => []
  | .list => []

/-- A finite sequence of operations run one after another: the loader at the
end and the collaborator calls made, in order. -/
def Loader.run : Loader → List Op → Loader × List Call
  | self, [] => (self, [])
  | self, op :: rest =>
    ((Loader.run (self.step op) rest).1,
      self.stepCalls op ++ (Loader.run (self.step op) rest).2)

/-- The calls `unload(n)` for the names of a list, one after another: the
loader at the end and the value each call returned. -/
def Loader.unloadAll : Loader → List String → Loader × List Bool
  | self, [] => (self, [])
  | self, n :: rest =>
    ((Loader.unloadAll (self.unload n).1 rest).1,
      (self.unload n).2 :: (Loader.unloadAll (self.unload n).1 rest).2)

/-- The arguments of one call of `load`, with the plugin side the call meets. -/
structure LoadCall where
  env : Plugins
  name : String
  type : String
  remappings : M_string
  my_argv : List String

/-- The calls of `load` of a list, one after another: the loader at the end and
how each call ended. -/
def Loader.loadAll : Loader → List LoadCall → Loader × List (Completion Bool)
  | self, [] => (self, [])
  | self, c :: rest =>
    ((Loader.loadAll (self.load c.env c.name c.type c.remappings c.my_argv).state rest).1,
      (self.load c.env c.name c.type c.remappings c.my_argv).result ::
        (Loader.loadAll (self.load c.env c.name c.type c.remappings c.my_argv).state
          rest).2)

/-! ## Sample data -/

/-- A plugin side on which the factory makes instance `p` for type `"T"`,
returns null for `"N"`, raises a pluginlib exception for any other type, and
`init` ends as `initResult` says. -/
def samplePlugins (p : Nat) (initResult : Except Raised Unit) : Plugins where
  createClassInstance := fun type =>
    if type = "T" then .ok (some ⟨p⟩)
    else if type = "N" then .ok none
    else .error .pluginlibException
  init := fun _ _ _ _ _ => initResult

/-- A loader holding nodelet 7 under the name `"a"`. -/
def sampleLoader : Loader :=
  ⟨false, (StdMap.empty : M_stringToNodelet).assign "a" ⟨7⟩, some .defaultConstructed⟩

/-- A load request for name `"a"` and type `"T"` whose remap lists have
different lengths. -/
def sampleRequest : NodeletLoadRequest :=
  ⟨"a", "T", ["x", "y"], ["z"], []⟩

/-- A name resolver that puts `/` in front of a name. -/
def sampleResolve (s : String) : Except Raised String := .ok ("/" ++ s)

/-- A loader holding nodelets 7, 8 and 9 under `"a"`, `"b"` and `"c"`. -/
def sampleLoader3 : Loader :=
  ⟨false, (((StdMap.empty : M_stringToNodelet).assign "b" ⟨8⟩).assign "a" ⟨7⟩).assign "c" ⟨9⟩,
    some .defaultConstructed⟩

/-- Two calls of `load`, for the names `"b"` and `"a"`. -/
def sampleLoadCalls : List LoadCall :=
  [⟨samplePlugins 1 (.ok ()), "b", "T", StdMap.empty, []⟩,
    ⟨samplePlugins 2 (.ok ()), "a", "T", StdMap.empty, []⟩]

/-- A load request whose remap lists have equal length and name the source
`"x"` twice. -/
def sampleRequestRemap : NodeletLoadRequest :=
  ⟨"a", "T", ["x", "y", "x"], ["p", "q", "r"], []⟩

/-- A loader with an empty registry. -/
def emptyLoader : Loader :=
  ⟨false, StdMap.empty, some .defaultConstructed⟩

/-! ## Facts about `StdMap` -/

namespace StdMap

variable {V : Type}

theorem findEntries_eq_none_iff (k : String) (l : List (String × V)) :
    findEntries k l = none ↔ k ∉ l.map Prod.fst := by
  induction l with
  | nil => simp [findEntries]
  | cons e rest ih =>
    unfold findEntries
    by_cases h : e.1 = k
    · simp [h]
    · have h2 : ¬ k = e.1 := fun hk => h hk.symm
      simp only [h, if_false, Option.map_eq_none', ih, List.map_cons, List.mem_cons, h2,
        false_or]

theorem lookupEntries_eq_none_iff (k : String) (l : List (String × V)) :
    lookupEntries k l = none ↔ k ∉ l.map Prod.fst := by
  induction l with
  | nil => simp [lookupEntries]
  | cons e rest ih =>
    unfold lookupEntries
    by_cases h : e.1 = k
    · simp [h]
    · have h2 : ¬ k = e.1 := fun hk => h hk.symm
      simp only [h, if_false, ih, List.map_cons, List.mem_cons, h2, false_or]

theorem lookupEntries_assignEntries (k : String) (v : V) (k2 : String)
    (l : List (String × V)) :
    lookupEntries k2 (assignEntries k v l) =
      if k2 = k then some v else lookupEntries k2 l := by
  induction l with
  | nil =>
    by_cases h : k2 = k
    · simp [assignEntries, lookupEntries, h]
    · have h2 : ¬ k = k2 := fun hk => h hk.symm
      simp [assignEntries, lookupEntries, h, h2]
  | cons e rest ih =>
    unfold assignEntries
    by_cases h1 : k < e.1
    · simp only [h1, if_true]
      by_cases h3 : k2 = k
      · simp [lookupEntries, h3]
      · have hk : ¬ k = k2 := fun hk => h3 hk.symm
        simp [lookupEntries, hk, h3]
    · simp only [h1, if_false]
      by_cases h2 : e.1 < k
      · simp only [h2, if_true]
        have he : ¬ e.1 = k := ne_of_lt h2
        by_cases h4 : k2 = k
        · subst h4
          simp [lookupEntries, he, ih]
        · simp [lookupEntries, ih, h4]
      · simp only [h2, if_false]
        have hek : e.1 = k := le_antisymm (not_lt.1 h1) (not_lt.1 h2)
        by_cases h5 : k2 = k
        · simp [lookupEntries, h5]
        · have hk : ¬ k = k2 := fun hk => h5 hk.symm
          have he : ¬ e.1 = k2 := fun he => hk (hek ▸ he)
          simp [lookupEntries, hk, he, h5]

theorem ordered_keys_nodup (l : List (String × V)) (h : Ordered l) :
    (l.map Prod.fst).Nodup := by
  unfold Ordered at h
  refine List.Pairwise.imp ?_ (List.pairwise_map.2 h)
  intro a b hab
  exact ne_of_lt hab

theorem lookupEntries_eraseIdx (k : String) (k2 : String) :
    ∀ (l : List (String × V)) (i : Nat), Ordered l → findEntries k l = some i →
      lookupEntries k2 (l.eraseIdx i) = if k2 = k then none else lookupEntries k2 l := by
  intro l
  induction l with
  | nil =>
    intro i _ hf
    simp [findEntries] at hf
  | cons e rest ih =>
    intro i hord hf
    have hpair := List.pairwise_cons.1 hord
    unfold findEntries at hf
    by_cases he : e.1 = k
    · simp only [he, if_true, Option.some.injEq] at hf
      subst hf
      simp only [List.eraseIdx_cons_zero]
      by_cases h2 : k2 = k
      · simp only [h2, if_true]
        rw [lookupEntries_eq_none_iff]
        intro hmem
        obtain ⟨b, hb, hbk⟩ := List.mem_map.1 hmem
        have := hpair.1 b hb
        rw [he, hbk] at this
        exact lt_irrefl _ this
      · have h3 : ¬ e.1 = k2 := fun h => h2 (h ▸ he)
        simp [lookupEntries, h2, h3]
    · simp only [he, if_false, Option.map_eq_some'] at hf
      obtain ⟨j, hj, hij⟩ := hf
      subst hij
      simp only [List.eraseIdx_cons_succ]
      have := ih j hpair.2 hj
      by_cases h2 : k2 = k
      · subst h2
        simp only [if_true] at this
        simp [lookupEntries, he, this]
      · simp [lookupEntries, this, h2]

theorem find_eq_none_iff (m : StdMap V) (k : String) : m.find k = none ↔ k ∉ m.keys :=
  findEntries_eq_none_iff k m.entries

theorem lookup_eq_none_iff (m : StdMap V) (k : String) : m.lookup k = none ↔ k ∉ m.keys :=
  lookupEntries_eq_none_iff k m.entries

theorem count_pos_iff (m : StdMap V) (k : String) : m.count k > 0 ↔ k ∈ m.keys := by
  unfold count
  cases h : m.find k with
  | none => simpa using (find_eq_none_iff m k).1 h
  | some i =>
    have : ¬ m.find k = none := by simp [h]
    simpa using fun hk => this ((find_eq_none_iff m k).2 hk)

theorem count_eq_zero_iff (m : StdMap V) (k : String) : m.count k = 0 ↔ k ∉ m.keys := by
  rw [← count_pos_iff]
  omega

theorem lookup_assign (m : StdMap V) (k : String) (v : V) (k2 : String) :
    (m.assign k v).lookup k2 = if k2 = k then some v else m.lookup k2 :=
  lookupEntries_assignEntries k v k2 m.entries

theorem mem_keys_assign (m : StdMap V) (k : String) (v : V) (k2 : String) :
    k2 ∈ (m.assign k v).keys ↔ k2 = k ∨ k2 ∈ m.keys := by
  have h1 := lookup_eq_none_iff (m.assign k v) k2
  have h2 := lookup_eq_none_iff m k2
  rw [lookup_assign] at h1
  by_cases h : k2 = k
  · simp only [h, if_true, true_or, iff_true] at h1 ⊢
    by_contra hc
    exact absurd (h1.2 hc) (by simp)
  · simp only [h, if_false, false_or] at h1 ⊢
    rw [← not_iff_not, ← h1, h2]

theorem keys_nodup (m : StdMap V) : m.keys.Nodup :=
  ordered_keys_nodup m.entries m.ordered

theorem lookup_erase (m : StdMap V) (k : String) (i : Nat) (h : m.find k = some i)
    (k2 : String) :
    (m.erase i).lookup k2 = if k2 = k then none else m.lookup k2 :=
  lookupEntries_eraseIdx k k2 m.entries i m.ordered h

theorem mem_keys_erase (m : StdMap V) (k : String) (i : Nat) (h : m.find k = some i)
    (k2 : String) :
    k2 ∈ (m.erase i).keys ↔ k2 ≠ k ∧ k2 ∈ m.keys := by
  have h1 := lookup_eq_none_iff (m.erase i) k2
  have h2 := lookup_eq_none_iff m k2
  rw [lookup_erase m k i h] at h1
  by_cases hk : k2 = k
  · simp only [hk, if_true, true_iff] at h1
    simp [hk, h1]
  · simp only [hk, if_false] at h1
    simp only [ne_eq, hk, not_false_eq_true, true_and]
    rw [← not_iff_not, ← h1, h2]

end StdMap

/-! ## Facts about `Loader::load`, one per path through the method -/

theorem Loader.load_present (env : Plugins) (self : Loader) (name type : String)
    (remappings : M_string) (my_argv : List String)
    (h : self.nodelets_.count name > 0) :
    self.load env name type remappings my_argv = ⟨self, .returned false, []⟩ := by
  unfold Loader.load
  simp [h]

theorem Loader.load_create_raised (env : Plugins) (self : Loader) (name type : String)
    (remappings : M_string) (my_argv : List String) (e : Raised)
    (h : ¬ self.nodelets_.count name > 0)
    (hc : env.createClassInstance type = .error e) :
    self.load env name type remappings my_argv =
      ⟨self, (match e with
        | .pluginlibException => .returned false
        | .other => .threw), [Call.createClassInstance type]⟩ := by
  unfold Loader.load Loader.loadTry
  simp only [h, if_false, hc]
  cases e <;> rfl

theorem Loader.load_create_null (env : Plugins) (self : Loader) (name type : String)
    (remappings : M_string) (my_argv : List String)
    (h : ¬ self.nodelets_.count name > 0)
    (hc : env.createClassInstance type = .ok none) :
    self.load env name type remappings my_argv =
      ⟨self, .returned false, [Call.createClassInstance type]⟩ := by
  unfold Loader.load Loader.loadTry
  simp only [h, if_false, hc]

theorem Loader.load_created (env : Plugins) (self : Loader) (name type : String)
    (remappings : M_string) (my_argv : List String) (p : NodeletPtr)
    (h : ¬ self.nodelets_.count name > 0)
    (hc : env.createClassInstance type = .ok (some p)) :
    self.load env name type remappings my_argv =
      ⟨{ self with nodelets_ := self.nodelets_.assign name p },
        (match env.init p name remappings my_argv self.callback_manager_ with
        | .ok () => .returned true
        | .error .pluginlibException => .returned false
        | .error .other => .threw),
        [Call.createClassInstance type,
          Call.init p name remappings my_argv self.callback_manager_]⟩ := by
  unfold Loader.load Loader.loadTry
  simp only [h, if_false, hc]
  cases hi : env.init p name remappings my_argv self.callback_manager_ with
  | error e => cases e <;> rfl
  | ok u => rfl

theorem Loader.load_true_iff (env : Plugins) (self : Loader) (name type : String)
    (remappings : M_string) (my_argv : List String) :
    (self.load env name type remappings my_argv).result = .returned true ↔
      ¬ self.nodelets_.count name > 0 ∧
      ∃ p, env.createClassInstance type = .ok (some p) ∧
        env.init p name remappings my_argv self.callback_manager_ = .ok () := by
  by_cases h : self.nodelets_.count name > 0
  · rw [Loader.load_present env self name type remappings my_argv h]
    simp [h]
  · cases hc : env.createClassInstance type with
    | error e =>
      rw [Loader.load_create_raised env self name type remappings my_argv e h hc]
      cases e <;> simp
    | ok o =>
      cases o with
      | none =>
        rw [Loader.load_create_null env self name type remappings my_argv h hc]
        simp
      | some p =>
        rw [Loader.load_created env self name type remappings my_argv p h hc]
        cases hi : env.init p name remappings my_argv self.callback_manager_ with
        | error e => cases e <;> simp [h, hi]
        | ok u => simp [h, hi]

/-! ## Facts about `Loader::unload` -/

theorem Loader.unload_of_mem (self : Loader) (name : String)
    (h : name ∈ self.listLoadedNodelets) :
    (self.unload name).2 = true ∧
    name ∉ (self.unload name).1.listLoadedNodelets ∧
    (self.unload name).1.callback_manager_ = self.callback_manager_ := by
  unfold Loader.unload Loader.listLoadedNodelets
  cases hf : self.nodelets_.find name with
  | none => exact absurd h ((StdMap.find_eq_none_iff _ _).1 hf)
  | some it =>
    refine ⟨rfl, ?_, rfl⟩
    intro hm
    exact ((StdMap.mem_keys_erase _ name it hf name).1 hm).1 rfl

theorem Loader.unload_keys (self : Loader) (name m : String) :
    m ∈ (self.unload name).1.listLoadedNodelets ↔
      m ≠ name ∧ m ∈ self.listLoadedNodelets := by
  unfold Loader.unload Loader.listLoadedNodelets
  cases hf : self.nodelets_.find name with
  | none =>
    have habs := (StdMap.find_eq_none_iff _ _).1 hf
    constructor
    · intro hm
      exact ⟨fun heq => habs (heq ▸ hm), hm⟩
    · exact fun hm => hm.2
  | some it => exact StdMap.mem_keys_erase _ name it hf m

theorem Loader.load_keys (env : Plugins) (self : Loader) (name type : String)
    (remappings : M_string) (my_argv : List String) (m : String) :
    m ∈ (self.load env name type remappings my_argv).state.listLoadedNodelets ↔
      m ∈ self.listLoadedNodelets ∨
      (m = name ∧ ∃ p, env.createClassInstance type = .ok (some p)) := by
  by_cases h : self.nodelets_.count name > 0
  · rw [Loader.load_present env self name type remappings my_argv h]
    have hmem : name ∈ self.listLoadedNodelets := (StdMap.count_pos_iff _ _).1 h
    constructor
    · exact fun hm => Or.inl hm
    · rintro (hm | ⟨rfl, _⟩)
      · exact hm
      · exact hmem
  · cases hc : env.createClassInstance type with
    | error e =>
      rw [Loader.load_create_raised env self name type remappings my_argv e h hc]
      simp
    | ok o =>
      cases o with
      | none =>
        rw [Loader.load_create_null env self name type remappings my_argv h hc]
        simp
      | some p =>
        rw [Loader.load_created env self name type remappings my_argv p h hc]
        simp only [Loader.listLoadedNodelets, StdMap.mem_keys_assign]
        constructor
        · rintro (hm | hm)
          · exact Or.inr ⟨hm, p, rfl⟩
          · exact Or.inl hm
        · rintro (hm | ⟨hm, _⟩)
          · exact Or.inr hm
          · exact Or.inl hm

/-- Records appear and disappear only as follows: a name absent before an
operation and present after it was given to a `load` whose factory call produced
an instance; a name present before and absent after was given to `unload`, or
the operation was `clear`. -/
theorem Loader.step_lifecycle (self : Loader) (op : Op) (m : String) :
    (m ∉ self.listLoadedNodelets → m ∈ (self.step op).listLoadedNodelets →
      ∃ env type remappings my_argv p, op = .load env m type remappings my_argv ∧
        env.createClassInstance type = .ok (some p)) ∧
    (m ∈ self.listLoadedNodelets → m ∉ (self.step op).listLoadedNodelets →
      op = .unload m ∨ op = .clear) := by
  cases op with
  | load env name type remappings my_argv =>
    simp only [Loader.step, Loader.load_keys]
    constructor
    · rintro habs (hm | ⟨rfl, p, hp⟩)
      · exact absurd hm habs
      · exact ⟨env, type, remappings, my_argv, p, rfl, hp⟩
    · intro hm hnot
      exact absurd (Or.inl hm) hnot
  | unload name =>
    simp only [Loader.step, Loader.unload_keys]
    constructor
    · intro habs hm
      exact absurd hm.2 habs
    · intro hm hnot
      by_cases heq : m = name
      · exact Or.inl (by rw [heq])
      · exact absurd ⟨heq, hm⟩ hnot
  | clear =>
    refine ⟨fun _ hm => ?_, fun _ _ => Or.inr rfl⟩
    exact absurd hm (by
      simp [Loader.step, Loader.clear, Loader.listLoadedNodelets, StdMap.clear,
        StdMap.keys, StdMap.empty])
  | list =>
    simp only [Loader.step]
    exact ⟨fun habs hm => absurd hm habs, fun hm hnot => absurd hm hnot⟩

/-! ## The registry contract -/

/-- C1: when `name` is already in the registry, `Loader::load` returns false,
leaves the loader exactly as it was (so every name, `name` included, still maps
to the instance it mapped to), and calls neither the factory nor any `init`. -/
theorem load_existing_name_rejected (env : Plugins) (self : Loader) (name type : String)
    (remappings : M_string) (my_argv : List String)
    (h : name ∈ self.listLoadedNodelets) :
    (self.load env name type remappings my_argv).result = .returned false ∧
    (self.load env name type remappings my_argv).state = self ∧
    (∀ m, (self.load env name type remappings my_argv).state.nodelets_.lookup m =
      self.nodelets_.lookup m) ∧
    (self.load env name type remappings my_argv).calls = [] := by
  have hc : self.nodelets_.count name > 0 := (StdMap.count_pos_iff _ _).2 h
  rw [Loader.load_present env self name type remappings my_argv hc]
  exact ⟨rfl, rfl, fun _ => rfl, rfl⟩

/-- Witness for C1: a second load of `"a"` into a loader that holds `"a"`. -/
theorem load_existing_name_rejected_witness :
    "a" ∈ sampleLoader.listLoadedNodelets ∧
    ((sampleLoader.load (samplePlugins 1 (.ok ())) "a" "T" StdMap.empty []).result =
        .returned false ∧
      (sampleLoader.load (samplePlugins 1 (.ok ())) "a" "T" StdMap.empty []).state =
        sampleLoader ∧
      (∀ m, (sampleLoader.load (samplePlugins 1 (.ok ())) "a" "T" StdMap.empty
          []).state.nodelets_.lookup m = sampleLoader.nodelets_.lookup m) ∧
      (sampleLoader.load (samplePlugins 1 (.ok ())) "a" "T" StdMap.empty []).calls = []) :=
  ⟨by decide,
    load_existing_name_rejected (samplePlugins 1 (.ok ())) sampleLoader "a" "T"
      StdMap.empty [] (by decide)⟩

/-- C2: when `Loader::load` returns true, `name` occurs exactly once in what
`listLoadedNodelets` returns for the resulting loader. -/
theorem load_true_listed_once (env : Plugins) (self : Loader) (name type : String)
    (remappings : M_string) (my_argv : List String)
    (h : (self.load env name type remappings my_argv).result = .returned true) :
    (self.load env name type remappings my_argv).state.listLoadedNodelets.count name
      = 1 := by
  obtain ⟨h0, p, hc, _⟩ := (Loader.load_true_iff env self name type remappings my_argv).1 h
  rw [Loader.load_created env self name type remappings my_argv p h0 hc]
  apply List.count_eq_one_of_mem (StdMap.keys_nodup _)
  exact (StdMap.mem_keys_assign _ _ _ _).2 (Or.inl rfl)

/-- Witness for C2: loading `"b"` into a loader that holds `"a"`. -/
theorem load_true_listed_once_witness :
    (sampleLoader.load (samplePlugins 1 (.ok ())) "b" "T" StdMap.empty []).result =
        .returned true ∧
    (sampleLoader.load (samplePlugins 1 (.ok ())) "b" "T" StdMap.empty
        []).state.listLoadedNodelets.count "b" = 1 :=
  ⟨by decide,
    load_true_listed_once (samplePlugins 1 (.ok ())) sampleLoader "b" "T" StdMap.empty []
      (by decide)⟩

/-- C3: when `name` is absent and the factory fails for `type` (it returns a
null instance or raises a pluginlib exception), `Loader::load` returns false and
the loader is unchanged: no record for `name` exists afterwards, and the only
collaborator call made is the one to the factory, so no `init` is invoked. -/
theorem load_factory_failure (env : Plugins) (self : Loader) (name type : String)
    (remappings : M_string) (my_argv : List String)
    (habsent : name ∉ self.listLoadedNodelets)
    (hfail : env.createClassInstance type = .ok none ∨
      env.createClassInstance type = .error .pluginlibException) :
    (self.load env name type remappings my_argv).result = .returned false ∧
    (self.load env name type remappings my_argv).state = self ∧
    name ∉ (self.load env name type remappings my_argv).state.listLoadedNodelets ∧
    (self.load env name type remappings my_argv).calls =
      [Call.createClassInstance type] := by
  have h0 : ¬ self.nodelets_.count name > 0 := fun hc =>
    habsent ((StdMap.count_pos_iff _ _).1 hc)
  rcases hfail with hnull | hexc
  · rw [Loader.load_create_null env self name type remappings my_argv h0 hnull]
    exact ⟨rfl, rfl, habsent, rfl⟩
  · rw [Loader.load_create_raised env self name type remappings my_argv _ h0 hexc]
    exact ⟨rfl, rfl, habsent, rfl⟩

/-- Witness for C3: loading `"b"` with the type `"N"`, for which the sample
factory returns null. -/
theorem load_factory_failure_witness :
    "b" ∉ sampleLoader.listLoadedNodelets ∧
    ((samplePlugins 1 (.ok ())).createClassInstance "N" = .ok none ∨
      (samplePlugins 1 (.ok ())).createClassInstance "N" = .error .pluginlibException) ∧
    ((sampleLoader.load (samplePlugins 1 (.ok ())) "b" "N" StdMap.empty []).result =
        .returned false ∧
      (sampleLoader.load (samplePlugins 1 (.ok ())) "b" "N" StdMap.empty []).state =
        sampleLoader ∧
      "b" ∉ (sampleLoader.load (samplePlugins 1 (.ok ())) "b" "N" StdMap.empty
        []).state.listLoadedNodelets ∧
      (sampleLoader.load (samplePlugins 1 (.ok ())) "b" "N" StdMap.empty []).calls =
        [Call.createClassInstance "N"]) :=
  ⟨by decide, Or.inl rfl,
    load_factory_failure (samplePlugins 1 (.ok ())) sampleLoader "b" "N" StdMap.empty []
      (by decide) (Or.inl rfl)⟩

/-- C4, as stated, fails: with an empty registry and an instance whose `init`
raises a pluginlib exception, the call instantiates the instance and inserts its
record under `"a"`, yet `Loader::load` does not return true. -/
theorem load_true_iff_inserted_refuted :
    ¬ ((emptyLoader.load (samplePlugins 1 (.error .pluginlibException)) "a" "T"
          StdMap.empty []).result = .returned true ↔
        Loader.instantiatedAndInserted (samplePlugins 1 (.error .pluginlibException))
          emptyLoader "a" "T"
          (emptyLoader.load (samplePlugins 1 (.error .pluginlibException)) "a" "T"
            StdMap.empty [])) := by
  intro h
  have hins : Loader.instantiatedAndInserted (samplePlugins 1 (.error .pluginlibException))
      emptyLoader "a" "T"
      (emptyLoader.load (samplePlugins 1 (.error .pluginlibException)) "a" "T"
        StdMap.empty []) :=
    ⟨by decide, ⟨1⟩, rfl, by decide, by decide⟩
  have hres := h.2 hins
  revert hres
  decide

/-- C4, amended: `Loader::load` returns true if and only if this call
instantiated an instance, inserted its record under the given name, and the
instance's `init` returned without raising. -/
theorem load_true_iff_inserted_and_init_returned (env : Plugins) (self : Loader)
    (name type : String) (remappings : M_string) (my_argv : List String) :
    (self.load env name type remappings my_argv).result = .returned true ↔
      (Loader.instantiatedAndInserted env self name type
          (self.load env name type remappings my_argv) ∧
        ∃ p, env.createClassInstance type = .ok (some p) ∧
          env.init p name remappings my_argv self.callback_manager_ = .ok ()) := by
  constructor
  · intro h
    obtain ⟨h0, p, hc, hi⟩ :=
      (Loader.load_true_iff env self name type remappings my_argv).1 h
    have hnone : self.nodelets_.lookup name = none :=
      (StdMap.lookup_eq_none_iff _ _).2 (fun hm => h0 ((StdMap.count_pos_iff _ _).2 hm))
    refine ⟨⟨?_, p, hc, hnone, ?_⟩, p, hc, hi⟩
    · rw [Loader.load_created env self name type remappings my_argv p h0 hc]
      exact List.mem_cons_self _ _
    · rw [Loader.load_created env self name type remappings my_argv p h0 hc]
      simp [StdMap.lookup_assign]
  · rintro ⟨⟨_, _, _, hnone, _⟩, p, hc, hi⟩
    have h0 : ¬ self.nodelets_.count name > 0 := fun hpos =>
      (StdMap.lookup_eq_none_iff _ _).1 hnone ((StdMap.count_pos_iff _ _).1 hpos)
    exact (Loader.load_true_iff env self name type remappings my_argv).2 ⟨h0, p, hc, hi⟩

/-- C5: `Loader::unload` returns true if and only if `name` was present before
the call; afterwards `name` is absent and every other name maps to the same
instance as before. When `name` was not present the call returns false and
`listLoadedNodelets` returns what it returned before. -/
theorem unload_contract (self : Loader) (name : String) :
    ((self.unload name).2 = true ↔ name ∈ self.listLoadedNodelets) ∧
    name ∉ (self.unload name).1.listLoadedNodelets ∧
    (∀ m, m ≠ name →
      (self.unload name).1.nodelets_.lookup m = self.nodelets_.lookup m) ∧
    (name ∉ self.listLoadedNodelets →
      (self.unload name).2 = false ∧
      (self.unload name).1.listLoadedNodelets = self.listLoadedNodelets) := by
  unfold Loader.unload Loader.listLoadedNodelets
  cases hf : self.nodelets_.find name with
  | none =>
    have habs : name ∉ self.nodelets_.keys := (StdMap.find_eq_none_iff _ _).1 hf
    simp [habs]
  | some it =>
    have hpres : name ∈ self.nodelets_.keys := by
      by_contra hc
      have := (StdMap.find_eq_none_iff _ _).2 hc
      rw [hf] at this
      exact absurd this (by simp)
    refine ⟨by simp [hpres], ?_, ?_, fun habs => absurd hpres habs⟩
    · intro hm
      exact ((StdMap.mem_keys_erase _ name it hf name).1 hm).1 rfl
    · intro m hm
      simp [StdMap.lookup_erase _ name it hf, hm]

/-- C6: `Loader::clear` returns true and afterwards `listLoadedNodelets`
returns the empty sequence. -/
theorem clear_empties_registry (self : Loader) :
    (self.clear).2 = true ∧ (self.clear).1.listLoadedNodelets = [] :=
  ⟨rfl, rfl⟩

/-- C7, as stated, fails: `"a"` is absent from the empty registry and the
factory produces an instance for `"T"`, but the instance's `init` raises a
pluginlib exception, so the first `load` returns false and the sequence does not
return true, true, true. -/
theorem name_reuse_round_trip_refuted :
    "a" ∉ emptyLoader.listLoadedNodelets ∧
    (samplePlugins 1 (.error .pluginlibException)).createClassInstance "T" =
      .ok (some ⟨1⟩) ∧
    (emptyLoader.load (samplePlugins 1 (.error .pluginlibException)) "a" "T"
      StdMap.empty []).result = .returned false ∧
    ¬ Loader.roundTripSucceeds (samplePlugins 1 (.error .pluginlibException))
      (samplePlugins 1 (.error .pluginlibException)) emptyLoader "a" "T" StdMap.empty [] :=
  ⟨by decide, rfl, by decide, by decide⟩

/-- C7, amended: for every loader, every absent name `a` and every type `T`
for which, at both loads, the factory produces an instance whose `init` returns
without raising, the sequence `load(a, T, ...)`, `unload(a)`, `load(a, T, ...)`
returns true, true, true, and `a` is present at the end. -/
theorem name_reuse_round_trip (env1 env2 : Plugins) (self : Loader) (a T : String)
    (remappings : M_string) (my_argv : List String) (p1 p2 : NodeletPtr)
    (habsent : a ∉ self.listLoadedNodelets)
    (hc1 : env1.createClassInstance T = .ok (some p1))
    (hi1 : env1.init p1 a remappings my_argv self.callback_manager_ = .ok ())
    (hc2 : env2.createClassInstance T = .ok (some p2))
    (hi2 : env2.init p2 a remappings my_argv self.callback_manager_ = .ok ()) :
    Loader.roundTripSucceeds env1 env2 self a T remappings my_argv := by
  have h0 : ¬ self.nodelets_.count a > 0 := fun hc =>
    habsent ((StdMap.count_pos_iff _ _).1 hc)
  have e1 := Loader.load_created env1 self a T remappings my_argv p1 h0 hc1
  rw [hi1] at e1
  have hmem1 : a ∈ (self.load env1 a T remappings my_argv).state.listLoadedNodelets :=
    (Loader.load_keys env1 self a T remappings my_argv a).2 (Or.inr ⟨rfl, p1, hc1⟩)
  obtain ⟨hu, habs2, hcm⟩ :=
    Loader.unload_of_mem (self.load env1 a T remappings my_argv).state a hmem1
  have hcm2 : ((self.load env1 a T remappings my_argv).state.unload a).1.callback_manager_ =
      self.callback_manager_ := by
    rw [hcm, e1]
  have h02 : ¬ ((self.load env1 a T remappings my_argv).state.unload a).1.nodelets_.count a
      > 0 := fun hc => habs2 ((StdMap.count_pos_iff _ _).1 hc)
  have e3 := Loader.load_created env2
    ((self.load env1 a T remappings my_argv).state.unload a).1 a T remappings my_argv p2
    h02 hc2
  rw [hcm2, hi2] at e3
  refine ⟨?_, hu, ?_, ?_⟩
  · rw [e1]
  · rw [e3]
  · exact (Loader.load_keys env2 _ a T remappings my_argv a).2 (Or.inr ⟨rfl, p2, hc2⟩)

/-- Witness for C7: the round trip on `"a"` from the empty registry. -/
theorem name_reuse_round_trip_witness :
    "a" ∉ emptyLoader.listLoadedNodelets ∧
    Loader.roundTripSucceeds (samplePlugins 1 (.ok ())) (samplePlugins 2 (.ok ()))
      emptyLoader "a" "T" StdMap.empty [] :=
  ⟨by decide,
    name_reuse_round_trip (samplePlugins 1 (.ok ())) (samplePlugins 2 (.ok ())) emptyLoader
      "a" "T" StdMap.empty [] ⟨1⟩ ⟨2⟩ (by decide) rfl rfl rfl rfl⟩

/-- C8 at the failing input: from the empty registry, `load("a", "T", ...)`
with an instance whose `init` raises a pluginlib exception returns false, and
`"a"`, absent before the call, is listed after it. -/
theorem load_false_leaves_record :
    "a" ∉ emptyLoader.listLoadedNodelets ∧
    (emptyLoader.load (samplePlugins 1 (.error .pluginlibException)) "a" "T"
      StdMap.empty []).result = .returned false ∧
    (emptyLoader.load (samplePlugins 1 (.error .pluginlibException)) "a" "T"
      StdMap.empty []).state.listLoadedNodelets = ["a"] :=
  ⟨by decide, by decide, by decide⟩

/-- C9, as stated, fails: the request has sources `["x", "y"]` and targets
`["z"]`, the name `"a"` is free and the type `"T"` is instantiable, but the
instance's `init` raises a pluginlib exception, and `success` is false. -/
theorem serviceLoad_mismatched_remap_refuted :
    sampleRequest.remap_source_args.length ≠ sampleRequest.remap_target_args.length ∧
    sampleRequest.name ∉ emptyLoader.listLoadedNodelets ∧
    (samplePlugins 1 (.error .pluginlibException)).createClassInstance sampleRequest.type =
      .ok (some ⟨1⟩) ∧
    (LoaderROS.serviceLoad (samplePlugins 1 (.error .pluginlibException)) sampleResolve
      emptyLoader sampleRequest ⟨false⟩).res.success = false :=
  ⟨by decide, by decide, rfl, by decide⟩

/-- C9, amended: for every load request whose source-remap and target-remap
lists have different lengths, `serviceLoad` does not abort: the remapping table
it builds is empty, it calls `Loader::load` with that table and ends as that
call ends; and when the name is free, the type is instantiable and the
instance's `init` returns without raising, `success` is true. -/
theorem serviceLoad_mismatched_remap (env : Plugins)
    (resolve : String → Except Raised String) (parent_ : Loader)
    (req : NodeletLoadRequest) (res : NodeletLoadResponse)
    (hlen : req.remap_source_args.length ≠ req.remap_target_args.length) :
    LoaderROS.buildRemappings resolve req = .ok StdMap.empty ∧
    (LoaderROS.serviceLoad env resolve parent_ req res).state =
      (parent_.load env req.name req.type StdMap.empty req.my_argv).state ∧
    (LoaderROS.serviceLoad env resolve parent_ req res).calls =
      (parent_.load env req.name req.type StdMap.empty req.my_argv).calls ∧
    (LoaderROS.serviceLoad env resolve parent_ req res).result =
      (parent_.load env req.name req.type StdMap.empty req.my_argv).result ∧
    (∀ p, req.name ∉ parent_.listLoadedNodelets →
      env.createClassInstance req.type = .ok (some p) →
      env.init p req.name StdMap.empty req.my_argv parent_.callback_manager_ = .ok () →
      (LoaderROS.serviceLoad env resolve parent_ req res).res.success = true ∧
      (LoaderROS.serviceLoad env resolve parent_ req res).result = .returned true ∧
      (LoaderROS.serviceLoad env resolve parent_ req res).calls =
        [Call.createClassInstance req.type,
          Call.init p req.name StdMap.empty req.my_argv parent_.callback_manager_]) := by
  have hb : LoaderROS.buildRemappings resolve req = .ok StdMap.empty := by
    unfold LoaderROS.buildRemappings
    simp [hlen]
  have hs : LoaderROS.serviceLoad env resolve parent_ req res =
      (match (parent_.load env req.name req.type StdMap.empty req.my_argv).result with
      | .returned b =>
        ⟨(parent_.load env req.name req.type StdMap.empty req.my_argv).state, ⟨b⟩,
          .returned b, (parent_.load env req.name req.type StdMap.empty req.my_argv).calls⟩
      | .threw =>
        ⟨(parent_.load env req.name req.type StdMap.empty req.my_argv).state, res,
          .threw, (parent_.load env req.name req.type StdMap.empty req.my_argv).calls⟩) := by
    unfold LoaderROS.serviceLoad
    rw [hb]
  refine ⟨hb, ?_, ?_, ?_, ?_⟩
  · rw [hs]
    cases (parent_.load env req.name req.type StdMap.empty req.my_argv).result <;> rfl
  · rw [hs]
    cases (parent_.load env req.name req.type StdMap.empty req.my_argv).result <;> rfl
  · rw [hs]
    cases hr : (parent_.load env req.name req.type StdMap.empty req.my_argv).result <;> rfl
  · intro p habsent hc hi
    have h0 : ¬ parent_.nodelets_.count req.name > 0 := fun hcnt =>
      habsent ((StdMap.count_pos_iff _ _).1 hcnt)
    have e1 := Loader.load_created env parent_ req.name req.type StdMap.empty req.my_argv p
      h0 hc
    rw [hi] at e1
    rw [hs, e1]
    exact ⟨rfl, rfl, rfl⟩

/-- Witness for C9: the request with sources `["x", "y"]` and targets `["z"]`
for the free name `"a"`, with an `init` that returns. -/
theorem serviceLoad_mismatched_remap_witness :
    sampleRequest.remap_source_args.length ≠ sampleRequest.remap_target_args.length ∧
    (LoaderROS.serviceLoad (samplePlugins 1 (.ok ())) sampleResolve emptyLoader
      sampleRequest ⟨false⟩).res.success = true ∧
    (LoaderROS.serviceLoad (samplePlugins 1 (.ok ())) sampleResolve emptyLoader
      sampleRequest ⟨false⟩).calls =
        [Call.createClassInstance "T",
          Call.init ⟨1⟩ "a" StdMap.empty [] emptyLoader.callback_manager_] :=
  ⟨by decide,
    ((serviceLoad_mismatched_remap (samplePlugins 1 (.ok ())) sampleResolve emptyLoader
      sampleRequest ⟨false⟩ (by decide)).2.2.2.2 ⟨1⟩ (by decide) rfl rfl).1,
    ((serviceLoad_mismatched_remap (samplePlugins 1 (.ok ())) sampleResolve emptyLoader
      sampleRequest ⟨false⟩ (by decide)).2.2.2.2 ⟨1⟩ (by decide) rfl rfl).2.2⟩

/-- C10: when `Loader::load` returns true, the `init` of the new instance, the
one the factory made and the registry now holds under `name`, is invoked exactly
once, with the name, remapping table and arguments given to `load` and with the
loader's `callback_manager_`; when the call is rejected because the name is
present, or the factory does not produce an instance, `init` is not invoked. -/
theorem load_init_invocations (env : Plugins) (self : Loader) (name type : String)
    (remappings : M_string) (my_argv : List String) :
    ((self.load env name type remappings my_argv).result = .returned true →
      ∃ p, env.createClassInstance type = .ok (some p) ∧
        (self.load env name type remappings my_argv).state.nodelets_.lookup name = some p ∧
        (self.load env name type remappings my_argv).calls.filter Call.isInit =
          [Call.init p name remappings my_argv self.callback_manager_]) ∧
    (name ∈ self.listLoadedNodelets →
      (self.load env name type remappings my_argv).calls.filter Call.isInit = []) ∧
    (name ∉ self.listLoadedNodelets →
      (∀ p, env.createClassInstance type ≠ .ok (some p)) →
      (self.load env name type remappings my_argv).calls.filter Call.isInit = []) := by
  refine ⟨?_, ?_, ?_⟩
  · intro h
    obtain ⟨h0, p, hc, _⟩ :=
      (Loader.load_true_iff env self name type remappings my_argv).1 h
    refine ⟨p, hc, ?_, ?_⟩
    · rw [Loader.load_created env self name type remappings my_argv p h0 hc]
      simp [StdMap.lookup_assign]
    · rw [Loader.load_created env self name type remappings my_argv p h0 hc]
      simp [Call.isInit]
  · intro h
    have hc : self.nodelets_.count name > 0 := (StdMap.count_pos_iff _ _).2 h
    rw [Loader.load_present env self name type remappings my_argv hc]
    rfl
  · intro h hfail
    have h0 : ¬ self.nodelets_.count name > 0 := fun hc =>
      h ((StdMap.count_pos_iff _ _).1 hc)
    cases hc : env.createClassInstance type with
    | error e =>
      rw [Loader.load_create_raised env self name type remappings my_argv e h0 hc]
      simp [Call.isInit]
    | ok o =>
      cases o with
      | none =>
        rw [Loader.load_create_null env self name type remappings my_argv h0 hc]
        simp [Call.isInit]
      | some p => exact absurd hc (hfail p)

/-! ## Further facts about the operations -/

theorem Loader.load_callback_manager (env : Plugins) (self : Loader) (name type : String)
    (remappings : M_string) (my_argv : List String) :
    (self.load env name type remappings my_argv).state.callback_manager_ =
      self.callback_manager_ := by
  by_cases h : self.nodelets_.count name > 0
  · rw [Loader.load_present env self name type remappings my_argv h]
  · cases hc : env.createClassInstance type with
    | error e => rw [Loader.load_create_raised env self name type remappings my_argv e h hc]
    | ok o =>
      cases o with
      | none => rw [Loader.load_create_null env self name type remappings my_argv h hc]
      | some p => rw [Loader.load_created env self name type remappings my_argv p h hc]

theorem Loader.load_calls_init (env : Plugins) (self : Loader) (name type : String)
    (remappings : M_string) (my_argv : List String) (p : NodeletPtr) (n : String)
    (r : M_string) (a : List String) (cm : CallbackQueueManagerPtr)
    (hmem : Call.init p n r a cm ∈ (self.load env name type remappings my_argv).calls) :
    cm = self.callback_manager_ := by
  by_cases h : self.nodelets_.count name > 0
  · rw [Loader.load_present env self name type remappings my_argv h] at hmem
    simp at hmem
  · cases hc : env.createClassInstance type with
    | error e =>
      rw [Loader.load_create_raised env self name type remappings my_argv e h hc] at hmem
      simp at hmem
    | ok o =>
      cases o with
      | none =>
        rw [Loader.load_create_null env self name type remappings my_argv h hc] at hmem
        simp at hmem
      | some q =>
        rw [Loader.load_created env self name type remappings my_argv q h hc] at hmem
        simp at hmem
        exact hmem.2.2.2.2

theorem Loader.load_lookup_ne (env : Plugins) (self : Loader) (name type : String)
    (remappings : M_string) (my_argv : List String) (m : String) (hm : m ≠ name) :
    (self.load env name type remappings my_argv).state.nodelets_.lookup m =
      self.nodelets_.lookup m := by
  by_cases h : self.nodelets_.count name > 0
  · rw [Loader.load_present env self name type remappings my_argv h]
  · cases hc : env.createClassInstance type with
    | error e => rw [Loader.load_create_raised env self name type remappings my_argv e h hc]
    | ok o =>
      cases o with
      | none => rw [Loader.load_create_null env self name type remappings my_argv h hc]
      | some p =>
        rw [Loader.load_created env self name type remappings my_argv p h hc]
        simp [StdMap.lookup_assign, hm]

theorem Loader.step_callback_manager (self : Loader) (op : Op) :
    (self.step op).callback_manager_ = self.callback_manager_ := by
  cases op with
  | load env name type remappings my_argv =>
    exact Loader.load_callback_manager env self name type remappings my_argv
  | unload name =>
    simp only [Loader.step, Loader.unload]
    cases self.nodelets_.find name <;> rfl
  | clear => rfl
  | list => rfl

theorem Loader.run_callback_manager (ops : List Op) :
    ∀ (self : Loader), (self.run ops).1.callback_manager_ = self.callback_manager_ := by
  induction ops with
  | nil => intro self; rfl
  | cons op rest ih =>
    intro self
    simp only [Loader.run]
    rw [ih (self.step op), Loader.step_callback_manager]

theorem Loader.run_calls_init (ops : List Op) :
    ∀ (self : Loader) (p : NodeletPtr) (n : String) (r : M_string) (a : List String)
      (cm : CallbackQueueManagerPtr),
      Call.init p n r a cm ∈ (self.run ops).2 → cm = self.callback_manager_ := by
  induction ops with
  | nil =>
    intro self p n r a cm hmem
    simp [Loader.run] at hmem
  | cons op rest ih =>
    intro self p n r a cm hmem
    simp only [Loader.run, List.mem_append] at hmem
    rcases hmem with h1 | h2
    · cases op with
      | load env name type remappings my_argv =>
        exact Loader.load_calls_init env self name type remappings my_argv p n r a cm h1
      | unload name => simp [Loader.stepCalls] at h1
      | clear => simp [Loader.stepCalls] at h1
      | list => simp [Loader.stepCalls] at h1
    · rw [ih (self.step op) p n r a cm h2, Loader.step_callback_manager]

theorem StdMap.eq_empty_of_keys {V : Type} (m : StdMap V) (h : m.keys = []) :
    m = StdMap.empty := by
  apply StdMap.ext_entries
  unfold StdMap.keys at h
  simpa [StdMap.empty] using h

theorem StdMap.assignEntries_length {V : Type} (k : String) (v : V) :
    ∀ (l : List (String × V)), k ∉ l.map Prod.fst →
      (StdMap.assignEntries k v l).length = l.length + 1 := by
  intro l
  induction l with
  | nil => intro _; rfl
  | cons e rest ih =>
    intro hk
    have hne : ¬ k = e.1 := fun h => hk (by simp [h])
    have hrest : k ∉ rest.map Prod.fst := fun h => hk (by
      rw [List.map_cons]
      exact List.mem_cons_of_mem _ h)
    unfold StdMap.assignEntries
    split_ifs with h1 h2
    · rfl
    · simp [ih hrest]
    · exact absurd (le_antisymm (not_lt.1 h2) (not_lt.1 h1)) hne

theorem StdMap.keys_sorted {V : Type} (m : StdMap V) : m.keys.Sorted (· < ·) := by
  unfold StdMap.keys List.Sorted
  exact List.pairwise_map.2 m.ordered

theorem Loader.unload_fields (self : Loader) (name : String) :
    (self.unload name).1.services_ = self.services_ ∧
    (self.unload name).1.callback_manager_ = self.callback_manager_ := by
  unfold Loader.unload
  cases self.nodelets_.find name <;> exact ⟨rfl, rfl⟩

theorem Loader.unloadAll_spec (ns : List String) :
    ∀ (self : Loader), ns.Nodup → (∀ n ∈ ns, n ∈ self.listLoadedNodelets) →
      (self.unloadAll ns).2 = List.replicate ns.length true ∧
      (∀ m, m ∈ (self.unloadAll ns).1.listLoadedNodelets ↔
        m ∈ self.listLoadedNodelets ∧ m ∉ ns) ∧
      (self.unloadAll ns).1.services_ = self.services_ ∧
      (self.unloadAll ns).1.callback_manager_ = self.callback_manager_ := by
  induction ns with
  | nil =>
    intro self _ _
    simp [Loader.unloadAll]
  | cons n rest ih =>
    intro self hnd hall
    have hnd2 := List.nodup_cons.1 hnd
    have hn : n ∈ self.listLoadedNodelets := hall n (List.mem_cons_self _ _)
    have hu := Loader.unload_of_mem self n hn
    have hf := Loader.unload_fields self n
    have hrest : ∀ k ∈ rest, k ∈ (self.unload n).1.listLoadedNodelets := by
      intro k hk
      rw [Loader.unload_keys]
      exact ⟨fun heq => hnd2.1 (heq ▸ hk), hall k (List.mem_cons_of_mem _ hk)⟩
    obtain ⟨h1, h2, h3, h4⟩ := ih (self.unload n).1 hnd2.2 hrest
    simp only [Loader.unloadAll]
    refine ⟨?_, ?_, ?_, ?_⟩
    · rw [h1, hu.1]
      rfl
    · intro m
      rw [h2 m, Loader.unload_keys]
      simp only [List.mem_cons, not_or]
      tauto
    · rw [h3, hf.1]
    · rw [h4, hf.2]

theorem Loader.loadAll_spec (cs : List LoadCall) :
    ∀ (self : Loader), (cs.map LoadCall.name).Nodup →
      (∀ c ∈ cs, c.name ∉ self.listLoadedNodelets) →
      (∀ c ∈ cs, ∃ p, c.env.createClassInstance c.type = .ok (some p) ∧
        c.env.init p c.name c.remappings c.my_argv self.callback_manager_ = .ok ()) →
      (self.loadAll cs).2 = List.replicate cs.length (.returned true) ∧
      (∀ m, m ∈ (self.loadAll cs).1.listLoadedNodelets ↔
        m ∈ self.listLoadedNodelets ∨ m ∈ cs.map LoadCall.name) ∧
      (self.loadAll cs).1.listLoadedNodelets.length =
        self.listLoadedNodelets.length + cs.length := by
  induction cs with
  | nil =>
    intro self _ _ _
    simp [Loader.loadAll]
  | cons c rest ih =>
    intro self hnd habs hok
    rw [List.map_cons] at hnd
    have hnd2 := List.nodup_cons.1 hnd
    have hc_abs : c.name ∉ self.listLoadedNodelets := habs c (List.mem_cons_self _ _)
    have h0 : ¬ self.nodelets_.count c.name > 0 := fun hcnt =>
      hc_abs ((StdMap.count_pos_iff _ _).1 hcnt)
    obtain ⟨p, hcr, hin⟩ := hok c (List.mem_cons_self _ _)
    have htrue : (self.load c.env c.name c.type c.remappings c.my_argv).result =
        .returned true :=
      (Loader.load_true_iff c.env self c.name c.type c.remappings c.my_argv).2
        ⟨h0, p, hcr, hin⟩
    have hkeys := Loader.load_keys c.env self c.name c.type c.remappings c.my_argv
    have hcm := Loader.load_callback_manager c.env self c.name c.type c.remappings c.my_argv
    have hlen : (self.load c.env c.name c.type c.remappings
        c.my_argv).state.listLoadedNodelets.length = self.listLoadedNodelets.length + 1 := by
      rw [Loader.load_created c.env self c.name c.type c.remappings c.my_argv p h0 hcr]
      simpa [Loader.listLoadedNodelets, StdMap.keys, StdMap.assign] using
        StdMap.assignEntries_length c.name p self.nodelets_.entries hc_abs
    have hrest_abs : ∀ d ∈ rest, d.name ∉
        (self.load c.env c.name c.type c.remappings c.my_argv).state.listLoadedNodelets := by
      intro d hd hmem
      rcases (hkeys d.name).1 hmem with h | ⟨h, _⟩
      · exact habs d (List.mem_cons_of_mem _ hd) h
      · exact hnd2.1 (h ▸ List.mem_map_of_mem LoadCall.name hd)
    have hrest_ok : ∀ d ∈ rest, ∃ q, d.env.createClassInstance d.type = .ok (some q) ∧
        d.env.init q d.name d.remappings d.my_argv
          (self.load c.env c.name c.type c.remappings c.my_argv).state.callback_manager_ =
          .ok () := by
      intro d hd
      rw [hcm]
      exact hok d (List.mem_cons_of_mem _ hd)
    obtain ⟨h1, h2, h3⟩ := ih _ hnd2.2 hrest_abs hrest_ok
    simp only [Loader.loadAll]
    refine ⟨?_, ?_, ?_⟩
    · rw [h1, htrue]
      rfl
    · intro m
      rw [h2 m, hkeys m]
      simp only [List.map_cons, List.mem_cons]
      constructor
      · rintro ((h | ⟨h, _⟩) | h)
        · exact Or.inl h
        · exact Or.inr (Or.inl h)
        · exact Or.inr (Or.inr h)
      · rintro (h | h | h)
        · exact Or.inl (Or.inl h)
        · exact Or.inl (Or.inr ⟨h, p, hcr⟩)
        · exact Or.inr h
    · rw [h3, hlen, List.length_cons]
      omega

/-! ## Facts about the remapping table of `serviceLoad` -/

theorem LoaderROS.remapLoop_ok (resolve : String → Except Raised String)
    (f : String → String) :
    ∀ (l : List (String × String)) (acc : M_string),
      (∀ e ∈ l, resolve e.1 = .ok (f e.1) ∧ resolve e.2 = .ok (f e.2)) →
      LoaderROS.remapLoop resolve l acc =
        .ok (l.foldl (fun m e => m.assign (f e.1) (f e.2)) acc) := by
  intro l
  induction l with
  | nil => intro acc _; rfl
  | cons d rest ih =>
    intro acc h
    obtain ⟨h1, h2⟩ := h d (List.mem_cons_self _ _)
    obtain ⟨s, t⟩ := d
    simp only at h1 h2
    simp only [LoaderROS.remapLoop, h1, h2, List.foldl_cons]
    exact ih _ (fun e he => h e (List.mem_cons_of_mem _ he))

theorem LoaderROS.foldl_assign_lookup_of_not_mem (f : String → String) (k : String) :
    ∀ (l : List (String × String)) (acc : M_string), (∀ e ∈ l, f e.1 ≠ k) →
      (l.foldl (fun m e => m.assign (f e.1) (f e.2)) acc).lookup k = acc.lookup k := by
  intro l
  induction l with
  | nil => intro acc _; rfl
  | cons d rest ih =>
    intro acc h
    rw [List.foldl_cons, ih _ (fun e he => h e (List.mem_cons_of_mem _ he)),
      StdMap.lookup_assign]
    have hne : ¬ k = f d.1 := fun hk => h d (List.mem_cons_self _ _) hk.symm
    simp [hne]

theorem LoaderROS.foldl_assign_lookup_last (f : String → String) :
    ∀ (l : List (String × String)) (acc : M_string) (j : Nat) (e : String × String),
      l[j]? = some e →
      (∀ j2 e2, j < j2 → l[j2]? = some e2 → f e2.1 ≠ f e.1) →
      (l.foldl (fun m e => m.assign (f e.1) (f e.2)) acc).lookup (f e.1) =
        some (f e.2) := by
  intro l
  induction l with
  | nil =>
    intro acc j e hj _
    simp at hj
  | cons d rest ih =>
    intro acc j e hj hlast
    cases j with
    | zero =>
      simp only [List.getElem?_cons_zero, Option.some.injEq] at hj
      subst hj
      rw [List.foldl_cons, LoaderROS.foldl_assign_lookup_of_not_mem f (f d.1) rest,
        StdMap.lookup_assign]
      · simp
      · intro e2 he2
        obtain ⟨i, hi⟩ := List.mem_iff_getElem?.1 he2
        exact hlast (i + 1) e2 (Nat.succ_pos i) (by simpa using hi)
    | succ j =>
      rw [List.getElem?_cons_succ] at hj
      rw [List.foldl_cons]
      apply ih _ j e hj
      intro j2 e2 hlt hj2
      exact hlast (j2 + 1) e2 (Nat.succ_lt_succ hlt) (by simpa using hj2)

theorem LoaderROS.foldl_assign_keys (f : String → String) (k : String) :
    ∀ (l : List (String × String)) (acc : M_string),
      k ∈ (l.foldl (fun m e => m.assign (f e.1) (f e.2)) acc).keys ↔
        k ∈ acc.keys ∨ ∃ e ∈ l, f e.1 = k := by
  intro l
  induction l with
  | nil => intro acc; simp
  | cons d rest ih =>
    intro acc
    rw [List.foldl_cons, ih, StdMap.mem_keys_assign]
    simp only [List.mem_cons, exists_eq_or_imp]
    constructor
    · rintro ((h | h) | h)
      · exact Or.inr (Or.inl h.symm)
      · exact Or.inl h
      · exact Or.inr (Or.inr h)
    · rintro (h | h | h)
      · exact Or.inl (Or.inr h)
      · exact Or.inl (Or.inl h.symm)
      · exact Or.inr h

theorem LoaderROS.serviceLoad_of_table (env : Plugins)
    (resolve : String → Except Raised String) (parent_ : Loader)
    (req : NodeletLoadRequest) (res : NodeletLoadResponse) (table : M_string)
    (hb : LoaderROS.buildRemappings resolve req = .ok table) :
    (LoaderROS.serviceLoad env resolve parent_ req res).state =
      (parent_.load env req.name req.type table req.my_argv).state ∧
    (LoaderROS.serviceLoad env resolve parent_ req res).calls =
      (parent_.load env req.name req.type table req.my_argv).calls ∧
    (LoaderROS.serviceLoad env resolve parent_ req res).result =
      (parent_.load env req.name req.type table req.my_argv).result := by
  unfold LoaderROS.serviceLoad
  rw [hb]
  simp only
  cases hr : (parent_.load env req.name req.type table req.my_argv).result <;>
    exact ⟨rfl, rfl, rfl⟩

/-! ## The registry contract, continued -/

/-- C11: in `Loader::load` the record is inserted before `init` is invoked: for
an absent name and a type the factory instantiates, when `init` raises, the
call has made the factory call and the `init` call, the registry holds the new
instance under the name afterwards (the insertion is not rolled back), and a
subsequent `unload` of the name returns true. -/
theorem load_init_raises_record_kept (env : Plugins) (self : Loader) (name type : String)
    (remappings : M_string) (my_argv : List String) (p : NodeletPtr) (e : Raised)
    (habsent : name ∉ self.listLoadedNodelets)
    (hc : env.createClassInstance type = .ok (some p))
    (hi : env.init p name remappings my_argv self.callback_manager_ = .error e) :
    (self.load env name type remappings my_argv).calls =
      [Call.createClassInstance type,
        Call.init p name remappings my_argv self.callback_manager_] ∧
    (self.load env name type remappings my_argv).state.nodelets_ =
      self.nodelets_.assign name p ∧
    (self.load env name type remappings my_argv).state.nodelets_.lookup name = some p ∧
    name ∈ (self.load env name type remappings my_argv).state.listLoadedNodelets ∧
    (self.load env name type remappings my_argv).result ≠ .returned true ∧
    ((self.load env name type remappings my_argv).state.unload name).2 = true := by
  have h0 : ¬ self.nodelets_.count name > 0 := fun hcnt =>
    habsent ((StdMap.count_pos_iff _ _).1 hcnt)
  have hmem : name ∈ (self.load env name type remappings my_argv).state.listLoadedNodelets :=
    (Loader.load_keys env self name type remappings my_argv name).2 (Or.inr ⟨rfl, p, hc⟩)
  have hu := (Loader.unload_of_mem _ name hmem).1
  have e1 := Loader.load_created env self name type remappings my_argv p h0 hc
  rw [hi] at e1
  refine ⟨?_, ?_, ?_, hmem, ?_, hu⟩
  · rw [e1]
  · rw [e1]
  · rw [e1]
    simp [StdMap.lookup_assign]
  · rw [e1]
    cases e <;> simp

/-- Witness for C11: loading `"b"` with an `init` that raises. -/
theorem load_init_raises_record_kept_witness :
    "b" ∉ sampleLoader.listLoadedNodelets ∧
    (sampleLoader.load (samplePlugins 1 (.error .other)) "b" "T" StdMap.empty
      []).state.listLoadedNodelets = ["a", "b"] ∧
    ((sampleLoader.load (samplePlugins 1 (.error .other)) "b" "T" StdMap.empty
      []).state.unload "b").2 = true :=
  ⟨by decide, by decide,
    (load_init_raises_record_kept (samplePlugins 1 (.error .other)) sampleLoader "b" "T"
      StdMap.empty [] ⟨1⟩ .other (by decide) rfl rfl).2.2.2.2.2⟩

/-- C12, as stated, fails: constructed with `provide_ros_api = false` while the
parameter `num_worker_threads` is set to 4, the loader holds a
default-constructed pool, not one made with 4 workers. -/
theorem ctor_pool_sizing_refuted :
    (Loader.ctor false (some 4)).callback_manager_ = some .defaultConstructed ∧
    (Loader.ctor false (some 4)).callback_manager_ ≠ some (.withThreads 4) :=
  ⟨by decide, by decide⟩

/-- C12, amended: when `provide_ros_api` is true and the parameter
`num_worker_threads` supplies a count `k`, the pool is made with `k` workers;
otherwise (no ROS API, or no such parameter) the pool is default-constructed.
In every case the pool handle is non-null when the constructor finishes. -/
theorem ctor_pool_sizing (provide_ros_api : Bool) (getParam : Option Int) :
    (∀ k, provide_ros_api = true → getParam = some k →
      (Loader.ctor provide_ros_api getParam).callback_manager_ = some (.withThreads k)) ∧
    ((provide_ros_api = false ∨ getParam = none) →
      (Loader.ctor provide_ros_api getParam).callback_manager_ =
        some .defaultConstructed) ∧
    (Loader.ctor provide_ros_api getParam).callback_manager_ ≠ none := by
  cases provide_ros_api <;> cases getParam <;> simp [Loader.ctor]

/-- C13: no `load`, `unload`, `clear` or list operation changes
`callback_manager_`: after every operation and after every finite sequence of
operations the loader holds the pool handle it started with (the one the
constructor made), and every `init` invoked along the sequence received that
handle. -/
theorem pool_handle_fixed (self : Loader) (ops : List Op) :
    (∀ op, (self.step op).callback_manager_ = self.callback_manager_) ∧
    (self.run ops).1.callback_manager_ = self.callback_manager_ ∧
    (∀ p name remappings my_argv cm,
      Call.init p name remappings my_argv cm ∈ (self.run ops).2 →
        cm = self.callback_manager_) :=
  ⟨Loader.step_callback_manager self, Loader.run_callback_manager ops self,
    Loader.run_calls_init ops self⟩

/-- C14: `clear` amounts to unloading all names: for the names
`listLoadedNodelets` returns, taken in any order, calling `unload` on each in
turn leaves the loader `clear` leaves, and each of those calls returns true. -/
theorem clear_eq_unload_all (self : Loader) (ns : List String)
    (hperm : ns.Perm self.listLoadedNodelets) :
    (self.unloadAll ns).1 = (self.clear).1 ∧
    (self.unloadAll ns).2 = List.replicate ns.length true := by
  have hnd : ns.Nodup := hperm.nodup_iff.2 (StdMap.keys_nodup _)
  have hall : ∀ n ∈ ns, n ∈ self.listLoadedNodelets := fun n hn => hperm.subset hn
  obtain ⟨h1, h2, h3, h4⟩ := Loader.unloadAll_spec ns self hnd hall
  refine ⟨?_, h1⟩
  have hkeys : (self.unloadAll ns).1.nodelets_.keys = [] := by
    apply List.eq_nil_iff_forall_not_mem.2
    intro m hm
    have := (h2 m).1 hm
    exact this.2 (hperm.symm.subset this.1)
  have hmap := StdMap.eq_empty_of_keys _ hkeys
  cases hs : (self.unloadAll ns).1 with
  | mk sv nd cm =>
    rw [hs] at h3 h4 hmap
    simp only at h3 h4 hmap
    rw [h3, h4, hmap]
    rfl

/-- Witness for C14: unloading `"c"`, `"a"`, `"b"` from a loader that holds
`"a"`, `"b"`, `"c"`. -/
theorem clear_eq_unload_all_witness :
    ["c", "a", "b"].Perm sampleLoader3.listLoadedNodelets ∧
    (sampleLoader3.unloadAll ["c", "a", "b"]).1 = (sampleLoader3.clear).1 ∧
    (sampleLoader3.unloadAll ["c", "a", "b"]).2 = [true, true, true] :=
  ⟨by decide, clear_eq_unload_all sampleLoader3 ["c", "a", "b"] (by decide)⟩

/-- C15: name uniqueness is an invariant: after any finite sequence of `load`,
`unload`, `clear` and list operations, from the empty registry the constructor
makes as from any other loader and whatever the factory and `init` do,
`listLoadedNodelets` contains no duplicate, so no name has more than one
record. -/
theorem names_unique_invariant (provide_ros_api : Bool) (getParam : Option Int)
    (self : Loader) (ops : List Op) :
    (((Loader.ctor provide_ros_api getParam).run ops).1.listLoadedNodelets).Nodup ∧
    ((self.run ops).1.listLoadedNodelets).Nodup ∧
    (∀ n, ((self.run ops).1.listLoadedNodelets).count n ≤ 1) :=
  ⟨StdMap.keys_nodup _, StdMap.keys_nodup _,
    fun _ => List.nodup_iff_count_le_one.1 (StdMap.keys_nodup _) _⟩

/-- C18: `listLoadedNodelets` returns the registered names in strictly
ascending order of `<` on strings; its elements are exactly the keys of the
registry (the names `count` finds, the names that have an instance); and the
call leaves the loader unchanged. -/
theorem list_sorted_keys (self : Loader) :
    (self.listLoadedNodelets).Sorted (· < ·) ∧
    (∀ k, k ∈ self.listLoadedNodelets ↔ self.nodelets_.count k > 0) ∧
    (∀ k, k ∈ self.listLoadedNodelets ↔ ∃ p, self.nodelets_.lookup k = some p) ∧
    self.step .list = self ∧
    (LoaderROS.serviceList self).1 = self.listLoadedNodelets := by
  refine ⟨StdMap.keys_sorted _, fun k => (StdMap.count_pos_iff _ k).symm, ?_, rfl, rfl⟩
  intro k
  have h := StdMap.lookup_eq_none_iff self.nodelets_ k
  unfold Loader.listLoadedNodelets
  constructor
  · intro hk
    cases hl : self.nodelets_.lookup k with
    | none => exact absurd hk (h.1 hl)
    | some p => exact ⟨p, rfl⟩
  · rintro ⟨p, hp⟩
    by_contra hk
    rw [h.2 hk] at hp
    exact absurd hp (by simp)

/-- C19: pairwise distinct names loaded one after another into an empty
registry, each with a factory that produces an instance for the requested type
and an `init` that returns: every `load` returns true, the names
`listLoadedNodelets` returns afterwards are exactly the loaded names, and their
number is the number of loads. -/
theorem sequential_distinct_loads (self : Loader) (cs : List LoadCall)
    (hempty : self.listLoadedNodelets = [])
    (hdistinct : (cs.map LoadCall.name).Nodup)
    (hok : ∀ c ∈ cs, ∃ p, c.env.createClassInstance c.type = .ok (some p) ∧
      c.env.init p c.name c.remappings c.my_argv self.callback_manager_ = .ok ()) :
    (self.loadAll cs).2 = List.replicate cs.length (.returned true) ∧
    (∀ m, m ∈ (self.loadAll cs).1.listLoadedNodelets ↔ m ∈ cs.map LoadCall.name) ∧
    (self.loadAll cs).1.listLoadedNodelets.length = cs.length := by
  have habs : ∀ c ∈ cs, c.name ∉ self.listLoadedNodelets := by
    intro c _
    rw [hempty]
    exact List.not_mem_nil _
  obtain ⟨h1, h2, h3⟩ := Loader.loadAll_spec cs self hdistinct habs hok
  refine ⟨h1, ?_, ?_⟩
  · intro m
    rw [h2 m, hempty]
    simp
  · rw [h3, hempty]
    simp

/-- Witness for C19: loading `"b"` and then `"a"` into the empty registry. -/
theorem sequential_distinct_loads_witness :
    emptyLoader.listLoadedNodelets = [] ∧
    (sampleLoadCalls.map LoadCall.name).Nodup ∧
    (emptyLoader.loadAll sampleLoadCalls).2 = [.returned true, .returned true] ∧
    (emptyLoader.loadAll sampleLoadCalls).1.listLoadedNodelets = ["a", "b"] ∧
    (emptyLoader.loadAll sampleLoadCalls).1.listLoadedNodelets.length = 2 :=
  ⟨by decide, by decide,
    (sequential_distinct_loads emptyLoader sampleLoadCalls (by decide) (by decide)
      (by
        intro c hc
        simp only [sampleLoadCalls, List.mem_cons, List.mem_singleton,
          List.not_mem_nil, or_false] at hc
        rcases hc with rfl | rfl
        · exact ⟨⟨1⟩, rfl, rfl⟩
        · exact ⟨⟨2⟩, rfl, rfl⟩)).1,
    by decide, by decide⟩

/-- C17: for a load request whose source-remap and target-remap lists have
equal length, with `resolve` returning `f s` for each name `s` of the two lists,
`serviceLoad` builds a table and calls `Loader::load` with it, and the table is
the zip of the resolved lists: its keys are exactly the resolved sources, each
resolved source maps to the resolved target at the last index where that
resolved source occurs, and when the resolved sources are pairwise distinct the
table has one entry per index, mapping the resolved source to the resolved
target of that index. -/
theorem serviceLoad_remap_table (env : Plugins)
    (resolve : String → Except Raised String) (parent_ : Loader)
    (req : NodeletLoadRequest) (res : NodeletLoadResponse) (f : String → String)
    (hlen : req.remap_source_args.length = req.remap_target_args.length)
    (hres : ∀ s, s ∈ req.remap_source_args ∨ s ∈ req.remap_target_args →
      resolve s = .ok (f s)) :
    ∃ table : M_string,
      LoaderROS.buildRemappings resolve req = .ok table ∧
      ((LoaderROS.serviceLoad env resolve parent_ req res).state =
          (parent_.load env req.name req.type table req.my_argv).state ∧
        (LoaderROS.serviceLoad env resolve parent_ req res).calls =
          (parent_.load env req.name req.type table req.my_argv).calls ∧
        (LoaderROS.serviceLoad env resolve parent_ req res).result =
          (parent_.load env req.name req.type table req.my_argv).result) ∧
      (∀ k, k ∈ table.keys ↔ ∃ s ∈ req.remap_source_args, f s = k) ∧
      (∀ (j : Nat) (s t : String),
        req.remap_source_args[j]? = some s → req.remap_target_args[j]? = some t →
        (∀ (j2 : Nat) (s2 : String), j < j2 → req.remap_source_args[j2]? = some s2 →
          f s2 ≠ f s) →
        table.lookup (f s) = some (f t)) ∧
      ((req.remap_source_args.map f).Nodup →
        table.keys.length = req.remap_source_args.length ∧
        ∀ (j : Nat) (s t : String), req.remap_source_args[j]? = some s →
          req.remap_target_args[j]? = some t → table.lookup (f s) = some (f t)) := by
  have hl : ∀ e ∈ req.remap_source_args.zip req.remap_target_args,
      resolve e.1 = .ok (f e.1) ∧ resolve e.2 = .ok (f e.2) := by
    rintro ⟨a, b⟩ he
    obtain ⟨h1, h2⟩ := List.of_mem_zip he
    exact ⟨hres _ (Or.inl h1), hres _ (Or.inr h2)⟩
  have hb : LoaderROS.buildRemappings resolve req =
      .ok ((req.remap_source_args.zip req.remap_target_args).foldl
        (fun m e => m.assign (f e.1) (f e.2)) StdMap.empty) := by
    unfold LoaderROS.buildRemappings
    simp only [hlen, ne_eq, not_true_eq_false, if_false]
    exact LoaderROS.remapLoop_ok resolve f _ _ hl
  have hfst : (req.remap_source_args.zip req.remap_target_args).map Prod.fst =
      req.remap_source_args := List.map_fst_zip _ _ (le_of_eq hlen)
  have hkeys : ∀ k, k ∈ ((req.remap_source_args.zip req.remap_target_args).foldl
      (fun m e => m.assign (f e.1) (f e.2)) (StdMap.empty : M_string)).keys ↔
      ∃ s ∈ req.remap_source_args, f s = k := by
    intro k
    rw [LoaderROS.foldl_assign_keys]
    constructor
    · rintro (h | ⟨e, he, hk⟩)
      · simp [StdMap.keys, StdMap.empty] at h
      · refine ⟨e.1, ?_, hk⟩
        rw [← hfst]
        exact List.mem_map_of_mem Prod.fst he
    · rintro ⟨s, hs, hk⟩
      rw [← hfst] at hs
      obtain ⟨e, he, hes⟩ := List.mem_map.1 hs
      exact Or.inr ⟨e, he, by rw [hes]; exact hk⟩
  have hlast : ∀ (j : Nat) (s t : String), req.remap_source_args[j]? = some s →
      req.remap_target_args[j]? = some t →
      (∀ (j2 : Nat) (s2 : String), j < j2 → req.remap_source_args[j2]? = some s2 →
        f s2 ≠ f s) →
      ((req.remap_source_args.zip req.remap_target_args).foldl
        (fun m e => m.assign (f e.1) (f e.2)) (StdMap.empty : M_string)).lookup (f s) =
        some (f t) := by
    intro j s t hs ht hlater
    refine LoaderROS.foldl_assign_lookup_last f _ _ j (s, t)
      (List.getElem?_zip_eq_some.2 ⟨hs, ht⟩) ?_
    intro j2 e2 hlt he2
    exact hlater j2 e2.1 hlt (List.getElem?_zip_eq_some.1 he2).1
  refine ⟨_, hb, LoaderROS.serviceLoad_of_table env resolve parent_ req res _ hb, hkeys,
    hlast, ?_⟩
  intro hnd
  constructor
  · have hperm := (List.perm_ext_iff_of_nodup (StdMap.keys_nodup
      ((req.remap_source_args.zip req.remap_target_args).foldl
        (fun m e => m.assign (f e.1) (f e.2)) (StdMap.empty : M_string))) hnd).2
      (fun k => by
        rw [hkeys k, List.mem_map])
    rw [hperm.length_eq, List.length_map]
  · intro j s t hs ht
    refine hlast j s t hs ht ?_
    intro j2 s2 hlt hs2 heq
    have hj2 : j2 < (req.remap_source_args.map f).length := by
      rw [List.length_map]
      exact (List.getElem?_eq_some.1 hs2).1
    have hne := List.nodup_iff_getElem?_ne_getElem?.1 hnd j j2 hlt hj2
    rw [List.getElem?_map, List.getElem?_map, hs, hs2] at hne
    exact hne (by simp [heq])

/-- Witness for C17: sources `["x", "y", "x"]`, targets `["p", "q", "r"]` and a
resolver that puts `/` in front: the table has the keys `"/x"` and `"/y"`, and
`"/x"` maps to `"/r"`, the target at the last index of `"x"`. -/
theorem serviceLoad_remap_table_witness :
    sampleRequestRemap.remap_source_args.length =
      sampleRequestRemap.remap_target_args.length ∧
    ∃ table : M_string,
      LoaderROS.buildRemappings sampleResolve sampleRequestRemap = .ok table ∧
      table.keys = ["/x", "/y"] ∧ table.lookup "/x" = some "/r" := by
  refine ⟨rfl, ?_⟩
  obtain ⟨table, hb, _, _, hlast, _⟩ :=
    serviceLoad_remap_table (samplePlugins 1 (.ok ())) sampleResolve emptyLoader
      sampleRequestRemap ⟨false⟩ (fun s => "/" ++ s) rfl (fun _ _ => rfl)
  refine ⟨table, hb, ?_, ?_⟩
  · have hb2 : LoaderROS.buildRemappings sampleResolve sampleRequestRemap =
        .ok ((((StdMap.empty : M_string).assign "/x" "/p").assign "/y" "/q").assign
          "/x" "/r") := rfl
    rw [hb2] at hb
    cases hb
    decide
  · exact hlast 2 "x" "r" rfl rfl (fun j2 s2 hlt hs2 => by
      have : sampleRequestRemap.remap_source_args[j2]? = none := by
        apply List.getElem?_eq_none
        simp only [sampleRequestRemap, List.length_cons, List.length_nil]
        omega
      rw [this] at hs2
      exact absurd hs2 (by simp))

/-- C20: whatever its result, a call `load(name, ...)` leaves every other
name `m` as it was: the registry holds under `m` what it held before (the same
instance when `m` was present, nothing when it was absent), and `m` is listed
afterwards exactly when it was listed before. -/
theorem load_frame (env : Plugins) (self : Loader) (name type : String)
    (remappings : M_string) (my_argv : List String) (m : String) (hm : m ≠ name) :
    (self.load env name type remappings my_argv).state.nodelets_.lookup m =
      self.nodelets_.lookup m ∧
    (m ∈ (self.load env name type remappings my_argv).state.listLoadedNodelets ↔
      m ∈ self.listLoadedNodelets) := by
  refine ⟨Loader.load_lookup_ne env self name type remappings my_argv m hm, ?_⟩
  rw [Loader.load_keys]
  constructor
  · rintro (h | ⟨h, _⟩)
    · exact h
    · exact absurd h hm
  · exact fun h => Or.inl h

/-- Witness for C20: loading `"b"` leaves `"a"` with nodelet 7. -/
theorem load_frame_witness :
    "a" ≠ "b" ∧
    (sampleLoader.load (samplePlugins 1 (.ok ())) "b" "T" StdMap.empty
      []).state.nodelets_.lookup "a" = some ⟨7⟩ :=
  ⟨by decide,
    ((load_frame (samplePlugins 1 (.ok ())) sampleLoader "b" "T" StdMap.empty [] "a"
      (by decide)).1).trans (by decide)⟩

end nodelet
